import Mathlib

/-! Shallow embedding of the `ducky` voice-chat pipeline (Rust sources
`src/audio.rs`, `src/llm.rs`, `src/stt.rs`, `src/main.rs`).

Modelling conventions:

* Audio samples (`f32`) and the `f64` intermediate arithmetic of the
  resampler are modelled by exact rational numbers `ℚ`; float rounding is
  not modelled.  Machine indices (`usize`) are `Nat`; the Rust cast
  `f64 as usize` on the non-negative values occurring here is `Nat.floor`.
* A Rust slice-index panic is modelled by `Option`: `none` is a panic.
* The external engines (llama.cpp behind `llama_cpp_2`, whisper.cpp behind
  `whisper_rs`, the cpal device layer) are out of scope per the spec and are
  modelled as oracles: unconstrained functions supplied as parameters.
* Mutex-serialized device callbacks are modelled as a sequence of atomic
  invocations of the pure callback body on explicit state.
-/

/-! Audio: resampling (`Audio::resample_audio`, audio.rs lines 83-107) -/

/-- Embedding of `Audio::resample_audio`.  `inputRate` is the field
`self.input_sample_rate`; `targetRate` is the argument.  The `f64`
arithmetic is modelled exactly over `ℚ`.  The `for` loop's conditional
`push` is a `filterMap` over `0..output_length`; `src_index_ceil`'s
`.min(audio_data.len() - 1)` uses truncated `Nat` subtraction exactly where
Rust would underflow only in iterations that never execute. -/
def resampleAudio (inputRate : ℕ) (audioData : List ℚ) (targetRate : ℕ) : List ℚ :=
  if inputRate = targetRate then audioData
  else
    let r : ℚ := (inputRate : ℚ) / (targetRate : ℚ)
    let outputLength : ℕ := ⌊(audioData.length : ℚ) / r⌋₊
    (List.range outputLength).filterMap (fun (i : ℕ) =>
      let srcIndex : ℚ := (i : ℚ) * r
      let srcIndexFloor : ℕ := ⌊srcIndex⌋₊
      let srcIndexCeil : ℕ := min (srcIndexFloor + 1) (audioData.length - 1)
      if srcIndexFloor < audioData.length then
        let sample1 := audioData.getD srcIndexFloor 0
        let sample2 := audioData.getD srcIndexCeil 0
        some (sample1 + (sample2 - sample1) * (srcIndex - (srcIndexFloor : ℚ)))
      else none)

/-! Audio: channel mixing (audio.rs lines 129-137 and 150-161) -/

/-- The stereo→mono averaging step of `record_until_enter`:
`recorded_data.chunks(2).map(|chunk| (chunk[0] + chunk[1]) / 2.0)`.
A trailing one-element chunk makes `chunk[1]` panic, modelled as `none`. -/
def stereoToMono : List ℚ → Option (List ℚ)
  | [] => some []
  | [_] => none
  | a :: b :: rest => (stereoToMono rest).map (fun tail => (a + b) / 2 :: tail)

/-- The capture-path channel handling of `record_until_enter` (audio.rs
lines 129-137): averaging only when `channels == 2`, otherwise the data is
passed through unchanged, whatever the channel count. -/
def mixToMono (channels : ℕ) (recordedData : List ℚ) : Option (List ℚ) :=
  if channels = 2 then stereoToMono recordedData else some recordedData

/-- The playback-path channel handling of `playback` (audio.rs lines
150-161): each sample is duplicated when `channels == 2`, otherwise the
data is copied unchanged, whatever the channel count. -/
def monoToPlayback (channels : ℕ) (audioData : List ℚ) : List ℚ :=
  if channels = 2 then audioData.flatMap (fun sample => [sample, sample])
  else audioData

/-! Audio: playback output callback (audio.rs lines 171-189)

The cpal output callback shares `playback_index` and the `finished` flag
with the foreground thread; each invocation holds the mutex for its whole
body, so a session is a sequence of atomic invocations.  `fillChunk` is the
body for one hardware-requested chunk of `n` samples; `runPlayback` chains
invocations for a list of requested chunk sizes. -/

/-- One playback-callback invocation filling a chunk of `n` output samples:
returns the samples written, the new `playback_index`, and the new
`finished` flag. -/
def fillChunk (data : List ℚ) : ℕ → ℕ → Bool → List ℚ × ℕ × Bool
  | 0, index, finished => ([], index, finished)
  | n + 1, index, finished =>
    if index < data.length then
      let rest := fillChunk data n (index + 1) finished
      (data.getD index 0 :: rest.1, rest.2)
    else
      let rest := fillChunk data n index true
      (0 :: rest.1, rest.2)

/-- A playback session: successive callback invocations with the requested
chunk sizes `chunkSizes`, threading index and finished flag. -/
def runPlayback (data : List ℚ) : List ℕ → ℕ → Bool → List ℚ × ℕ × Bool
  | [], index, finished => ([], index, finished)
  | c :: cs, index, finished =>
    let one := fillChunk data c index finished
    let rest := runPlayback data cs one.2.1 one.2.2
    (one.1 ++ rest.1, rest.2)

/-! LLM: conversation state and prompt rendering (llm.rs) -/

/-- Rust enum `MessageRole` (llm.rs lines 20-25). -/
inductive MessageRole
  | user
  | assistant
  | system
deriving DecidableEq

/-- Embedding of `MessageRole::to_str` (llm.rs lines 27-35). -/
def MessageRole.toStr : MessageRole → String
  | MessageRole.user => "user"
  | MessageRole.assistant => "assistant"
  | MessageRole.system => "system"

/-- Rust struct `Message` (llm.rs lines 37-41). -/
structure Message where
  role : MessageRole
  content : String
deriving DecidableEq

/-- Embedding of `Message::system` (llm.rs lines 44-49). -/
def Message.mkSystem (content : String) : Message :=
  ⟨MessageRole.system, content⟩

/-- Embedding of `Message::user` (llm.rs lines 51-56). -/
def Message.mkUser (content : String) : Message :=
  ⟨MessageRole.user, content⟩

/-- Embedding of `Message::assistant` (llm.rs lines 58-63). -/
def Message.mkAssistant (content : String) : Message :=
  ⟨MessageRole.assistant, content⟩

/-- Embedding of `Message::format` (llm.rs lines 65-71):
`format!("<|start_header_id|>{}<|end_header_id|>\n\n{}<|eot_id|>\n", role, content)`. -/
def Message.format (m : Message) : String :=
  "<|start_header_id|>" ++ m.role.toStr ++ "<|end_header_id|>\n\n" ++ m.content ++ "<|eot_id|>\n"

/-- The constant `SYSTEM_PROMPT` (llm.rs lines 15-18), a raw string beginning and ending
with a newline. -/
def systemPromptText : String :=
  "\nYou are a rubber duck. Listen to the user's problem and help them solve it by asking questions.\nYou are not allowed to answer the user's question directly.\n"

/-- The initial `messages` field of `Llm::new` (llm.rs line 94):
`vec![Message::system(SYSTEM_PROMPT)]`. -/
def llmInitialMessages : List Message :=
  [Message.mkSystem systemPromptText]

/-- The prompt string built by `Llm::format_prompt` (llm.rs lines 109-129)
and handed to `str_to_token`: every stored message chained with the pending
user message, each `Message::format`ted, joined with `""`, wrapped in
`<|begin_of_text|>` and a trailing assistant header.  (`AddBos::Always` and
tokenization itself belong to the external engine.) -/
def formatPromptText (messages : List Message) (userMessage : Message) : String :=
  let chatHistory := String.join ((messages ++ [userMessage]).map Message.format)
  "<|begin_of_text|>" ++ chatHistory ++ "<|start_header_id|>assistant<|end_header_id|>\n\n"

/-- Modelled from the spec: `render_prompt(pending_user_message)`
"concatenates every stored message plus the not-yet-stored pending user
message, each formatted as a role-delimited block, in conversation order,
with a single trailing delimiter that opens an assistant turn" — a plain
right fold appending one block per message in order onto the single
assistant-opening delimiter. -/
def renderPromptOfSpec (messages : List Message) (userMessage : Message) : String :=
  "<|begin_of_text|>" ++
    (messages ++ [userMessage]).foldr (fun m acc => m.format ++ acc)
      "<|start_header_id|>assistant<|end_header_id|>\n\n"

/-! LLM: generation loop (`Llm::generate`, llm.rs lines 146-193)

The llama.cpp engine (context creation, decoding, greedy sampling,
detokenization) and the output sink are external; they are modelled by an
oracle.  The sampler/context pair is deterministic given the iteration
index, so the token sampled at loop iteration `k` is `sample k`; success of
the engine and sink calls at iteration `k` is likewise indexed by `k`.
Tokens (`LlamaToken`, an `i32` newtype) are `ℤ`; byte strings are
`List ℕ`. -/

/-- Oracle for the external llama.cpp engine and the output sink used by
`Llm::chat`/`generate`. -/
structure LlmOracle where
  /-- Call `model.str_to_token(text, AddBos::Always)`: `none` is `Err`. -/
  tokenize : String → Option (List ℤ)
  /-- Whether `model.new_context` succeeds (llm.rs lines 151-154). -/
  ctxOk : Bool
  /-- Whether the prefill `ctx.decode(&mut batch)` succeeds (line 157). -/
  prefillOk : Bool
  /-- Result of `sampler.sample(..)` at loop iteration `k` (line 167). -/
  sample : ℕ → ℤ
  /-- Value of `model.token_eos()` (line 169). -/
  eos : ℤ
  /-- Call `model.token_to_bytes(token, Special::Tokenize)`: `none` is `Err`. -/
  tokenToBytes : ℤ → Option (List ℕ)
  /-- Whether `write_all` + `flush` on the sink succeed at iteration `k`. -/
  writeOk : ℕ → Bool
  /-- Whether the in-loop `ctx.decode(&mut batch)` succeeds at iteration `k`. -/
  decodeOk : ℕ → Bool
  /-- Call `String::from_utf8(output)`: `none` is `Err` (invalid UTF-8). -/
  fromUtf8 : List ℕ → Option String

/-- Error cases surfaced by `Llm::chat` / `Llm::generate` (each `?` early
return in llm.rs). -/
inductive LlmError
  | tokenizeFailed
  | ctxCreateFailed
  | batchAddFailed
  | decodeFailed
  | tokenToBytesFailed
  | writeFailed
  | invalidOutputEncoding
deriving DecidableEq

/-- Observable outcome of one run of the `for token_idx in ...` loop of
`generate` (llm.rs lines 166-188), starting at iteration `k` with `fuel`
iterations left: bytes appended to `output`, bytes written to the sink,
number of `sampler.sample` calls, number of in-loop `ctx.decode`
submissions, and the error (if any) that aborted the loop. -/
structure GenLoopResult where
  output : List ℕ
  sink : List ℕ
  samples : ℕ
  decodes : ℕ
  err : Option LlmError
deriving DecidableEq

/-- The generation loop body (llm.rs lines 166-188).  Each iteration
samples a token; on EOS it breaks; otherwise it detokenizes (`?`), writes
and flushes to the sink (`?`), extends `output`, and submits a one-token
decode batch (`?`). -/
def genLoop (o : LlmOracle) : ℕ → ℕ → GenLoopResult
  | 0, _ => ⟨[], [], 0, 0, none⟩
  | fuel + 1, k =>
    let token := o.sample k
    if token = o.eos then ⟨[], [], 1, 0, none⟩
    else
      match o.tokenToBytes token with
      | none => ⟨[], [], 1, 0, some LlmError.tokenToBytesFailed⟩
      | some outputBytes =>
        if o.writeOk k then
          if o.decodeOk k then
            let rest := genLoop o fuel (k + 1)
            ⟨outputBytes ++ rest.output, outputBytes ++ rest.sink,
              rest.samples + 1, rest.decodes + 1, rest.err⟩
          else ⟨outputBytes, outputBytes, 1, 1, some LlmError.decodeFailed⟩
        else ⟨[], [], 1, 0, some LlmError.writeFailed⟩

/-- Observable outcome of `Llm::generate` (llm.rs lines 146-193). -/
structure GenOutcome where
  /-- the returned value: assistant message content, or the error. -/
  result : Except LlmError String
  /-- bytes accumulated in `output`. -/
  outputBytes : List ℕ
  /-- bytes written to the output sink. -/
  sink : List ℕ
  /-- number of `sampler.sample` calls. -/
  samples : ℕ
  /-- number of in-loop `ctx.decode` submissions. -/
  loopDecodes : ℕ

/-- Embedding of `Llm::generate`: create a context (`?`), build the prefill batch of
capacity 2048 (`batch.add` fails once the batch is full, so a prompt longer
than 2048 tokens errors), decode it (`?`), run the loop, and validate the
collected bytes as UTF-8 (`?`). -/
def generate (o : LlmOracle) (inputTokens : List ℤ) (maxResponseLength : ℕ) : GenOutcome :=
  if o.ctxOk = false then ⟨Except.error LlmError.ctxCreateFailed, [], [], 0, 0⟩
  else if 2048 < inputTokens.length then ⟨Except.error LlmError.batchAddFailed, [], [], 0, 0⟩
  else if o.prefillOk = false then ⟨Except.error LlmError.decodeFailed, [], [], 0, 0⟩
  else
    let r := genLoop o maxResponseLength 0
    match r.err with
    | some e => ⟨Except.error e, r.output, r.sink, r.samples, r.decodes⟩
    | none =>
      match o.fromUtf8 r.output with
      | none => ⟨Except.error LlmError.invalidOutputEncoding, r.output, r.sink, r.samples, r.decodes⟩
      | some s => ⟨Except.ok s, r.output, r.sink, r.samples, r.decodes⟩

/-- Embedding of `Llm::chat` (llm.rs lines 98-107) acting on the `messages` state: on
any `?` early return the state is returned unchanged together with the
error; on success the user and assistant messages are pushed. -/
def chat (o : LlmOracle) (messages : List Message) (messageContent : String) :
    List Message × Option LlmError :=
  let userMessage := Message.mkUser messageContent
  match o.tokenize (formatPromptText messages userMessage) with
  | none => (messages, some LlmError.tokenizeFailed)
  | some tokensList =>
    let g := generate o tokensList 256
    match g.result with
    | Except.error e => (messages, some e)
    | Except.ok outputString =>
      (messages ++ [userMessage, Message.mkAssistant outputString], none)

/-! STT: transcription (`Stt::transcribe`, stt.rs lines 15-39)

whisper.cpp behind `whisper_rs` is external; `create_state`, `full`,
`full_n_segments` and `full_get_segment_text` are oracle calls.  The model
additionally reports whether any engine call was made, to state the
guarantee that the empty-input check precedes every engine call. -/

/-- Oracle for the whisper.cpp engine behind `Stt`. -/
structure WhisperEngine where
  /-- Whether `self.ctx.create_state()` succeeds. -/
  createStateOk : Bool
  /-- Whether `state.full(params, audio_data)` succeeds on this input. -/
  fullOk : List ℚ → Bool
  /-- Call `state.full_n_segments()`: `none` is `Err`. -/
  nSegments : Option ℕ
  /-- Call `state.full_get_segment_text(i)`: `none` is `Err`. -/
  segmentText : ℕ → Option String

/-- Error cases surfaced by `Stt::transcribe`. -/
inductive SttError
  | emptyAudioInput
  | engineFailure
deriving DecidableEq

/-- The segment-concatenation loop of `transcribe` (stt.rs lines 31-36):
`full_text` after appending segments `0..n`, `none` if any
`full_get_segment_text` call fails. -/
def collectSegments (segmentText : ℕ → Option String) : ℕ → Option String
  | 0 => some ""
  | n + 1 =>
    match collectSegments segmentText n, segmentText n with
    | some fullText, some segText => some (fullText ++ segText)
    | _, _ => none

/-- Embedding of `Stt::transcribe` (stt.rs lines 15-39), paired with a flag recording
whether any call into the whisper engine was made: the empty-input check
(`audio_data.is_empty()`) bails out before `create_state`/`full` run. -/
def transcribe (engine : WhisperEngine) (audioData : List ℚ) :
    Except SttError String × Bool :=
  if audioData.isEmpty then (Except.error SttError.emptyAudioInput, false)
  else if engine.createStateOk = false then (Except.error SttError.engineFailure, true)
  else if engine.fullOk audioData = false then (Except.error SttError.engineFailure, true)
  else
    match engine.nSegments with
    | none => (Except.error SttError.engineFailure, true)
    | some numSegments =>
      match collectSegments engine.segmentText numSegments with
      | none => (Except.error SttError.engineFailure, true)
      | some fullText => (Except.ok fullText, true)

/-! Theorems -/

/-- C8: For every sample sequence, if the source sample rate equals the
target sample rate then `resample_audio` returns a value-equal copy of its
input (resampling is the identity). -/
theorem resample_same_rate_identity (sampleRate : ℕ) (samples : List ℚ) :
    resampleAudio sampleRate samples sampleRate = samples := by
  simp [resampleAudio]

/-- C2 counterexample: with 3 channels, both the capture-path mix and the
playback-path mix produce output (the data unchanged) instead of failing
with an `UnsupportedChannelLayout` error — no such error exists in the
code. -/
theorem channel_mix_c2_counterexample :
    mixToMono 3 [1, 2, 3] = some [1, 2, 3] ∧ monoToPlayback 3 [1, 2, 3] = [1, 2, 3] := by
  constructor <;> rfl

/-- C2 amended: for every channel count other than 2 (including every count
other than 1 and 2), the channel-mixing steps do not fail: the capture path
passes the interleaved buffer through unchanged as if it were mono, and the
playback path plays it as-is; no `UnsupportedChannelLayout` error is ever
produced. -/
theorem channel_mix_passthrough (channels : ℕ) (data : List ℚ) (h : channels ≠ 2) :
    mixToMono channels data = some data ∧ monoToPlayback channels data = data := by
  constructor <;> simp [mixToMono, monoToPlayback, h]

/-- Witness for `channel_mix_passthrough` at channel count 3. -/
theorem channel_mix_passthrough_witness :
    (3 : ℕ) ≠ 2 ∧ (mixToMono 3 [(1 : ℚ)] = some [1] ∧ monoToPlayback 3 [(1 : ℚ)] = [1]) :=
  ⟨by decide, channel_mix_passthrough 3 [1] (by decide)⟩

/-- The `chunks(2)`-averaging succeeds exactly on even-length buffers. -/
theorem stereoToMono_isSome_iff (data : List ℚ) :
    (stereoToMono data).isSome ↔ data.length % 2 = 0 := by
  induction data using stereoToMono.induct with
  | case1 => simp [stereoToMono]
  | case2 a => simp [stereoToMono]
  | case3 a b rest ih =>
    simp only [stereoToMono, List.length_cons]
    cases h : stereoToMono rest with
    | none => simp [h] at ih ⊢; omega
    | some tail => simp [h] at ih ⊢; omega

/-- C10: with a 2-channel input configuration, the stereo-to-mono averaging
of `record_until_enter` is in-bounds (returns a value) exactly for
even-length accumulated buffers; an odd-length buffer leaves a final
one-element chunk whose `chunk[1]` access is out of bounds — a panic,
modelled as `none`. -/
theorem stereo_avg_inbounds_iff_even (data : List ℚ) :
    (mixToMono 2 data).isSome ↔ data.length % 2 = 0 := by
  simpa [mixToMono] using stereoToMono_isSome_iff data

/-- The claim C1 interpolation formula at output index `i`: linear
interpolation between the input sample at `⌊i * ratio⌋` and the one at
`⌊i * ratio⌋ + 1` (clamped to the last valid index), weighted by the
fractional part of `i * ratio`. -/
def interpAt (src dst : ℕ) (samples : List ℚ) (i : ℕ) : ℚ :=
  let p : ℚ := (i : ℚ) * ((src : ℚ) / (dst : ℚ))
  let fl : ℕ := ⌊p⌋₊
  let ce : ℕ := min (fl + 1) (samples.length - 1)
  samples.getD fl 0 + (samples.getD ce 0 - samples.getD fl 0) * (p - (fl : ℚ))

/-- Claim C1, stated as a predicate: the resampled output has exactly
`⌊len / (src/dst)⌋ = len * dst / src` elements, each the claimed linear
interpolation, and empty input yields empty output. -/
def ResampleMeets (src dst : ℕ) (samples : List ℚ) : Prop :=
  (resampleAudio src samples dst).length = samples.length * dst / src ∧
  (∀ i < samples.length * dst / src,
    (resampleAudio src samples dst).getD i 0 = interpAt src dst samples i) ∧
  (samples = [] → resampleAudio src samples dst = [])

/-- A `filterMap` whose function is `some ∘ g` on every element of
`List.range n` is the corresponding `map`. -/
theorem filterMap_range_eq_map {α : Type} (n : ℕ) (f : ℕ → Option α) (g : ℕ → α)
    (h : ∀ i < n, f i = some (g i)) :
    (List.range n).filterMap f = (List.range n).map g := by
  induction n with
  | zero => simp
  | succ m ih =>
    rw [List.range_succ, List.filterMap_append, List.map_append]
    rw [ih (fun i hi => h i (Nat.lt_succ_of_lt hi))]
    simp [h m (Nat.lt_succ_self m)]

/-- The output length computed by `resample_audio` in exact arithmetic:
`⌊len / (src / dst)⌋ = len * dst / src` (natural division). -/
theorem floor_len_div_ratio (len src dst : ℕ) (hs : 0 < src) (_hd : 0 < dst) :
    ⌊(len : ℚ) / ((src : ℚ) / (dst : ℚ))⌋₊ = len * dst / src := by
  have h1 : (len : ℚ) / ((src : ℚ) / (dst : ℚ)) = ((len * dst : ℕ) : ℚ) / ((src : ℕ) : ℚ) := by
    push_cast
    field_simp
  rw [h1, Nat.floor_div_nat, Nat.floor_natCast]

/-- For every output index `i` below the computed output length, the floor
source index is strictly inside the input, so the conditional `push` of
`resample_audio` always fires. -/
theorem floor_guard (len src dst i : ℕ) (hs : 0 < src) (hd : 0 < dst)
    (hi : i < len * dst / src) :
    ⌊(i : ℚ) * ((src : ℚ) / (dst : ℚ))⌋₊ < len := by
  have hr : (0 : ℚ) < (src : ℚ) / (dst : ℚ) := by positivity
  have hle : ((i + 1 : ℕ) : ℚ) ≤ (len : ℚ) / ((src : ℚ) / (dst : ℚ)) := by
    rw [← Nat.le_floor_iff (by positivity)]
    rw [floor_len_div_ratio len src dst hs hd]
    omega
  have hmul : ((i : ℚ) + 1) * ((src : ℚ) / (dst : ℚ)) ≤ (len : ℚ) := by
    rw [← le_div_iff₀ hr]
    push_cast at hle
    exact hle
  have hlt : (i : ℚ) * ((src : ℚ) / (dst : ℚ)) < (len : ℚ) := by nlinarith
  rw [Nat.floor_lt (by positivity)]
  exact hlt

/-- With distinct positive rates, `resample_audio` is the map of the
interpolation formula over `0 ..< len * dst / src`. -/
theorem resample_eq_map (samples : List ℚ) (src dst : ℕ) (hs : 0 < src) (hd : 0 < dst)
    (hne : src ≠ dst) :
    resampleAudio src samples dst =
      (List.range (samples.length * dst / src)).map (interpAt src dst samples) := by
  unfold resampleAudio
  rw [if_neg hne]
  show (List.range ⌊(samples.length : ℚ) / ((src : ℚ) / (dst : ℚ))⌋₊).filterMap
      (fun (i : ℕ) =>
        if ⌊(i : ℚ) * ((src : ℚ) / (dst : ℚ))⌋₊ < samples.length then
          some (samples.getD ⌊(i : ℚ) * ((src : ℚ) / (dst : ℚ))⌋₊ 0 +
            (samples.getD (min (⌊(i : ℚ) * ((src : ℚ) / (dst : ℚ))⌋₊ + 1) (samples.length - 1)) 0 -
              samples.getD ⌊(i : ℚ) * ((src : ℚ) / (dst : ℚ))⌋₊ 0) *
            ((i : ℚ) * ((src : ℚ) / (dst : ℚ)) - (⌊(i : ℚ) * ((src : ℚ) / (dst : ℚ))⌋₊ : ℚ)))
        else none) = _
  rw [floor_len_div_ratio samples.length src dst hs hd]
  apply filterMap_range_eq_map
  intro i hi
  have hguard := floor_guard samples.length src dst i hs hd hi
  rw [if_pos hguard]
  rfl

/-- C1: for positive rates with `src ≠ dst`, `resample_audio` has output
length exactly `⌊len / (src / dst)⌋`, its `i`-th element is the linear
interpolation between the samples at `⌊i * ratio⌋` and `⌊i * ratio⌋ + 1`
(clamped to the last index) weighted by the fractional part of
`i * ratio`, and empty input gives empty output.  The `f64` arithmetic of
the source is modelled by exact rationals. -/
theorem resample_linear_interp (samples : List ℚ) (src dst : ℕ)
    (hs : 0 < src) (hd : 0 < dst) (hne : src ≠ dst) :
    ResampleMeets src dst samples := by
  have hmap := resample_eq_map samples src dst hs hd hne
  refine ⟨?_, ?_, ?_⟩
  · rw [hmap]; simp
  · intro i hi
    rw [hmap]
    have hlen : i < ((List.range (samples.length * dst / src)).map
        (interpAt src dst samples)).length := by simpa using hi
    rw [List.getD_eq_getElem _ _ hlen]
    simp
  · intro h
    subst h
    rw [hmap]
    simp

/-- Witness for `resample_linear_interp` at the 44100 Hz → 16 kHz pair of
the spec on a concrete 4-sample buffer. -/
theorem resample_linear_interp_witness :
    (0 < 44100 ∧ 0 < 16000 ∧ 44100 ≠ 16000) ∧ ResampleMeets 44100 16000 [1, 2, 3, 4] :=
  ⟨by decide, resample_linear_interp [1, 2, 3, 4] 44100 16000 (by decide) (by decide) (by decide)⟩

/-- Characterization of one playback-callback invocation: starting at read
cursor `index ≤ len`, a chunk of `n` samples is the next `n` buffer samples
followed by zeros once the buffer is exhausted; the cursor advances to
`min (index + n) len`; the finished flag is set exactly when a position past
the end was filled. -/
theorem fillChunk_eq (data : List ℚ) (n : ℕ) :
    ∀ (index : ℕ) (finished : Bool), index ≤ data.length →
    fillChunk data n index finished =
      ((data.drop index).take n ++ List.replicate (n - (data.length - index)) 0,
       min (index + n) data.length,
       finished || decide (data.length - index < n)) := by
  induction n with
  | zero =>
    intro index finished hle
    simp [fillChunk, Nat.min_eq_left hle]
  | succ m ih =>
    intro index finished hle
    by_cases h : index < data.length
    · rw [fillChunk, if_pos h]
      rw [ih (index + 1) finished (by omega)]
      have h1 : data.drop index = data[index] :: data.drop (index + 1) :=
        List.drop_eq_getElem_cons h
      have h2 : (m + 1) - (data.length - index) = m - (data.length - (index + 1)) := by omega
      have h3 : index + 1 + m = index + (m + 1) := by omega
      have h4 : decide (data.length - (index + 1) < m) = decide (data.length - index < m + 1) := by
        simp only [decide_eq_decide]
        omega
      simp only [h1, List.take_succ_cons, List.getD_eq_getElem data 0 h, h2, h3, h4,
        List.cons_append]
    · rw [fillChunk, if_neg h]
      have heq : index = data.length := by omega
      subst heq
      rw [ih data.length true (le_refl _)]
      simp [List.drop_length, List.replicate_succ]

/-- Characterization of a whole playback session from cursor `index`: the
emitted samples, final cursor and finished flag after callback invocations
of sizes `cs`. -/
theorem runPlayback_eq (data : List ℚ) (cs : List ℕ) :
    ∀ (index : ℕ) (finished : Bool), index ≤ data.length →
    runPlayback data cs index finished =
      ((data.drop index).take cs.sum ++ List.replicate (cs.sum - (data.length - index)) 0,
       min (index + cs.sum) data.length,
       finished || decide (data.length - index < cs.sum)) := by
  induction cs with
  | nil =>
    intro index finished hle
    simp [runPlayback, Nat.min_eq_left hle]
  | cons c cs ih =>
    intro index finished hle
    rw [runPlayback]
    rw [fillChunk_eq data c index finished hle]
    have hidx1 : min (index + c) data.length ≤ data.length := Nat.min_le_right _ _
    rw [ih (min (index + c) data.length) _ hidx1]
    by_cases hc : index + c ≤ data.length
    · have hmin : min (index + c) data.length = index + c := Nat.min_eq_left hc
      rw [hmin]
      refine congrArg₂ Prod.mk ?_ (congrArg₂ Prod.mk ?_ ?_)
      · have hz : c - (data.length - index) = 0 := by omega
        rw [hz, List.replicate_zero, List.append_nil, List.sum_cons]
        rw [List.take_add, List.append_assoc]
        have hdd : (data.drop index).drop c = data.drop (index + c) := by
          rw [List.drop_drop]
        rw [hdd]
        have hcount : cs.sum - (data.length - (index + c)) = (c + cs.sum) - (data.length - index) := by
          omega
        rw [hcount]
      · simp only [List.sum_cons]
        omega
      · simp only [List.sum_cons, Bool.or_assoc]
        congr 1
        rw [← Bool.decide_or]
        simp only [decide_eq_decide]
        omega
    · have hmin : min (index + c) data.length = data.length := by omega
      rw [hmin]
      refine congrArg₂ Prod.mk ?_ (congrArg₂ Prod.mk ?_ ?_)
      · rw [List.drop_length]
        simp only [List.take_nil, List.nil_append, List.sum_cons, Nat.sub_self]
        have hlen : (data.drop index).length = data.length - index := List.length_drop index data
        have htake1 : (data.drop index).take c = data.drop index := by
          apply List.take_of_length_le
          omega
        have htake2 : (data.drop index).take (c + cs.sum) = data.drop index := by
          apply List.take_of_length_le
          omega
        rw [htake1, htake2, List.append_assoc, ← List.replicate_add]
        have hcount : c - (data.length - index) + (cs.sum - 0) = c + cs.sum - (data.length - index) := by
          omega
        rw [hcount]
      · simp only [List.sum_cons]
        omega
      · simp only [List.sum_cons]
        have h1 : decide (data.length - index < c) = true := by
          simp only [decide_eq_true_eq]
          omega
        have h2 : decide (data.length - index < c + cs.sum) = true := by
          simp only [decide_eq_true_eq]
          omega
        rw [h1, h2]
        simp

/-- C7: in every playback session (callback invocations of arbitrary
requested chunk sizes `cs`, serialized by the mutex), the output callback
emits the buffer's samples in order exactly once per index, fills every
position past the end of the buffer with zero samples, and the finished
flag is set exactly when some position past the end was filled — that is,
only after all `data.length` samples have been consumed (for a 3-sample
buffer, only after exactly 3 samples), never before. -/
theorem playback_emits_in_order_then_zeros_sets_finished (data : List ℚ) (cs : List ℕ) :
    runPlayback data cs 0 false =
      (data.take cs.sum ++ List.replicate (cs.sum - data.length) 0,
       min cs.sum data.length,
       decide (data.length < cs.sum)) := by
  rw [runPlayback_eq data cs 0 false (Nat.zero_le _)]
  simp

/-- Folding string append from an arbitrary accumulator. -/
theorem strFoldl_append (l : List String) :
    ∀ acc : String, l.foldl (· ++ ·) acc = acc ++ String.join l := by
  induction l with
  | nil =>
    intro acc
    rw [List.foldl_nil, show String.join [] = "" from rfl, String.append_empty]
  | cons s l ih =>
    intro acc
    rw [List.foldl_cons, ih (acc ++ s)]
    have hc : String.join (s :: l) = s ++ String.join l := by
      show List.foldl (· ++ ·) "" (s :: l) = _
      rw [List.foldl_cons, ih ("" ++ s), String.empty_append]
    rw [hc, String.append_assoc]

/-- Joining a cons cell of strings. -/
theorem strJoin_cons (s : String) (l : List String) :
    String.join (s :: l) = s ++ String.join l := by
  show List.foldl (· ++ ·) "" (s :: l) = _
  rw [List.foldl_cons, strFoldl_append l ("" ++ s), String.empty_append]

/-- Joining the formatted blocks and appending a trailing delimiter is the
right fold of block-prepending over the message list. -/
theorem join_format_append (l : List Message) :
    ∀ tail : String,
      String.join (l.map Message.format) ++ tail =
        l.foldr (fun m acc => m.format ++ acc) tail := by
  induction l with
  | nil =>
    intro tail
    rw [List.map_nil, show String.join [] = "" from rfl, String.empty_append, List.foldr_nil]
  | cons m l ih =>
    intro tail
    rw [List.map_cons, strJoin_cons, String.append_assoc, ih tail, List.foldr_cons]

/-- C6: the prompt rendered by `format_prompt` is exactly the spec's
rendering — the concatenation, in conversation order, of every stored
message followed by the pending user message, each wrapped in the fixed
role-delimited template, followed by exactly one trailing delimiter opening
an assistant turn; and on the initial conversation state the System block
comes first, then the pending User block.  (`format_prompt` takes `&self`,
so the stored message list cannot be mutated by rendering.) -/
theorem format_prompt_renders_conversation (msgs : List Message) (u : Message) :
    formatPromptText msgs u = renderPromptOfSpec msgs u ∧
    formatPromptText llmInitialMessages u =
      "<|begin_of_text|>" ++ (Message.mkSystem systemPromptText).format ++ u.format ++
        "<|start_header_id|>assistant<|end_header_id|>\n\n" := by
  constructor
  · unfold formatPromptText renderPromptOfSpec
    show "<|begin_of_text|>" ++
        (String.join ((msgs ++ [u]).map Message.format) ++
          "<|start_header_id|>assistant<|end_header_id|>\n\n") = _
    rw [join_format_append]
  · unfold formatPromptText llmInitialMessages
    show "<|begin_of_text|>" ++
        (String.join (([Message.mkSystem systemPromptText] ++ [u]).map Message.format) ++
          "<|start_header_id|>assistant<|end_header_id|>\n\n") = _
    rw [join_format_append]
    rw [List.singleton_append, List.foldr_cons, List.foldr_cons, List.foldr_nil]
    simp [String.append_assoc]

/-- The generation loop performs at most `fuel` sampling iterations. -/
theorem genLoop_samples_le (o : LlmOracle) : ∀ (fuel k : ℕ), (genLoop o fuel k).samples ≤ fuel := by
  intro fuel
  induction fuel with
  | zero => intro k; simp [genLoop]
  | succ m ih =>
    intro k
    have ihk := ih (k + 1)
    simp only [genLoop]
    by_cases h1 : o.sample k = o.eos
    · simp [h1]
    · cases h2 : o.tokenToBytes (o.sample k) with
      | none => simp [h1, h2]
      | some outputBytes =>
        by_cases h3 : o.writeOk k
        · by_cases h4 : o.decodeOk k
          · simp [h1, h2, h3, h4]
            omega
          · simp [h1, h2, h3, h4]
        · simp [h1, h2, h3]

/-- C3: for every oracle, prompt token list and configured maximum response
length `n`, `generate` performs at most `n` sampling iterations; the loop
is a bounded `for` over `start .. start + n`, so it returns (reaches
`Done`) even when the end-of-sequence token is never sampled — the model
is a total function by construction. -/
theorem generate_bounded_sampling (o : LlmOracle) (inputTokens : List ℤ) (n : ℕ) :
    (generate o inputTokens n).samples ≤ n := by
  unfold generate
  by_cases h1 : o.ctxOk = false
  · simp [h1]
  · rw [if_neg h1]
    by_cases h2 : 2048 < inputTokens.length
    · simp [h2]
    · rw [if_neg h2]
      by_cases h3 : o.prefillOk = false
      · simp [h3]
      · rw [if_neg h3]
        have hs := genLoop_samples_le o n 0
        cases herr : (genLoop o n 0).err with
        | some e => simp only [herr]; exact hs
        | none =>
          simp only [herr]
          cases hut : o.fromUtf8 (genLoop o n 0).output with
          | none => simp only [hut]; exact hs
          | some str => simp only [hut]; exact hs

/-- Loop iteration `j` runs to completion without stopping: the sampled
token is not EOS, detokenization succeeds, the sink accepts the bytes, and
the one-token decode succeeds. -/
abbrev stepOk (o : LlmOracle) (j : ℕ) : Prop :=
  o.sample j ≠ o.eos ∧ (o.tokenToBytes (o.sample j)).isSome ∧
    o.writeOk j = true ∧ o.decodeOk j = true

/-- The bytes of the tokens sampled at iterations `start .. start + count`,
concatenated in order. -/
def bytesFrom (o : LlmOracle) (start count : ℕ) : List ℕ :=
  (List.range count).flatMap (fun j => (o.tokenToBytes (o.sample (start + j))).getD [])

theorem bytesFrom_zero (o : LlmOracle) (start : ℕ) : bytesFrom o start 0 = [] := rfl

theorem bytesFrom_succ (o : LlmOracle) (start count : ℕ) :
    bytesFrom o start (count + 1) =
      (o.tokenToBytes (o.sample start)).getD [] ++ bytesFrom o (start + 1) count := by
  unfold bytesFrom
  rw [List.range_succ_eq_map]
  rw [List.flatMap_cons, List.flatMap_map]
  simp only [Nat.add_zero, Function.comp, Nat.add_succ, Nat.succ_add]

/-- If iterations `start .. start + k` all run to completion and iteration
`start + k` samples EOS, the loop from `start` with enough fuel emits
exactly the bytes of the first `k` tokens, samples `k + 1` times, submits
`k` decode batches, and stops without error. -/
theorem genLoop_eos (o : LlmOracle) :
    ∀ (k fuel start : ℕ), k < fuel →
      (∀ j < k, stepOk o (start + j)) → o.sample (start + k) = o.eos →
      genLoop o fuel start = ⟨bytesFrom o start k, bytesFrom o start k, k + 1, k, none⟩ := by
  intro k
  induction k with
  | zero =>
    intro fuel start hk hok heos
    obtain ⟨m, rfl⟩ : ∃ m, fuel = m + 1 := ⟨fuel - 1, by omega⟩
    rw [Nat.add_zero] at heos
    simp only [genLoop]
    rw [if_pos heos, bytesFrom_zero]
  | succ k ih =>
    intro fuel start hk hok heos
    obtain ⟨m, rfl⟩ : ∃ m, fuel = m + 1 := ⟨fuel - 1, by omega⟩
    have h0 := hok 0 (by omega)
    rw [Nat.add_zero] at h0
    obtain ⟨hne, hbytes, hwrite, hdecode⟩ := h0
    obtain ⟨outputBytes, hb⟩ := Option.isSome_iff_exists.mp hbytes
    have hok1 : ∀ j < k, stepOk o (start + 1 + j) := by
      intro j hj
      have := hok (j + 1) (by omega)
      rwa [show start + (j + 1) = start + 1 + j by omega] at this
    have heos1 : o.sample (start + 1 + k) = o.eos := by
      rwa [show start + (k + 1) = start + 1 + k by omega] at heos
    simp only [genLoop]
    rw [if_neg hne, hb]
    simp only [hwrite, hdecode, if_true]
    rw [ih m (start + 1) (by omega) hok1 heos1]
    rw [bytesFrom_succ, hb]
    rfl

/-- C4: whenever greedy sampling yields the end-of-sequence token (at
iteration `k`, after `k` completed iterations), `generate` stops
immediately: the EOS token's bytes are neither written to the output sink
nor appended to the collected output bytes (both hold exactly the bytes of
the `k` earlier tokens), and no further decode batch is submitted (exactly
`k` in-loop decode submissions). -/
theorem generate_stops_at_eos (o : LlmOracle) (inputTokens : List ℤ) (n k : ℕ)
    (hctx : o.ctxOk = true) (hlen : inputTokens.length ≤ 2048)
    (hpre : o.prefillOk = true) (hk : k < n)
    (hok : ∀ j < k, stepOk o j) (heos : o.sample k = o.eos) :
    (generate o inputTokens n).outputBytes = bytesFrom o 0 k ∧
    (generate o inputTokens n).sink = bytesFrom o 0 k ∧
    (generate o inputTokens n).samples = k + 1 ∧
    (generate o inputTokens n).loopDecodes = k := by
  have hok0 : ∀ j < k, stepOk o (0 + j) := by
    intro j hj
    rw [Nat.zero_add]
    exact hok j hj
  have heos0 : o.sample (0 + k) = o.eos := by rw [Nat.zero_add]; exact heos
  have hloop := genLoop_eos o k n 0 hk hok0 heos0
  unfold generate
  rw [hctx]
  rw [if_neg (by simp), if_neg (by omega), if_neg (by rw [hpre]; simp)]
  rw [hloop]
  cases hut : o.fromUtf8 (GenLoopResult.mk (bytesFrom o 0 k) (bytesFrom o 0 k) (k + 1) k none).output with
  | none => simp [hut]
  | some str => simp [hut]

/-- A concrete oracle: token 5 at iteration 0, EOS (7) at iteration 1,
every engine and sink call succeeding. -/
def eosAtOneOracle : LlmOracle where
  tokenize := fun _ => some [1]
  ctxOk := true
  prefillOk := true
  sample := fun k => if k = 0 then 5 else 7
  eos := 7
  tokenToBytes := fun t => some [t.natAbs]
  writeOk := fun _ => true
  decodeOk := fun _ => true
  fromUtf8 := fun _ => some ""

/-- Witness for `generate_stops_at_eos`: with `eosAtOneOracle`, EOS arrives
at iteration 1 of a 256-iteration budget. -/
theorem generate_stops_at_eos_witness :
    (eosAtOneOracle.ctxOk = true ∧ ([(1 : ℤ)].length ≤ 2048 ∧ eosAtOneOracle.prefillOk = true) ∧
      (1 < 256 ∧ (∀ j < 1, stepOk eosAtOneOracle j) ∧ eosAtOneOracle.sample 1 = eosAtOneOracle.eos)) ∧
    ((generate eosAtOneOracle [1] 256).outputBytes = bytesFrom eosAtOneOracle 0 1 ∧
     (generate eosAtOneOracle [1] 256).sink = bytesFrom eosAtOneOracle 0 1 ∧
     (generate eosAtOneOracle [1] 256).samples = 1 + 1 ∧
     (generate eosAtOneOracle [1] 256).loopDecodes = 1) :=
  ⟨⟨by decide, ⟨by decide, by decide⟩, by decide, by decide, by decide⟩,
    generate_stops_at_eos eosAtOneOracle [1] 256 1 (by decide) (by decide) (by decide)
      (by decide) (by decide) (by decide)⟩

/-- C5: if tokenization, context creation, the prefill decode, any in-loop
engine or sink call, or UTF-8 validation of the collected output fails
during `chat`, then `chat` reports the error and the conversation state is
returned unchanged: neither the pending user message nor any partial
assistant message is appended. -/
theorem chat_error_leaves_messages_unchanged (o : LlmOracle) (msgs : List Message)
    (content : String) (e : LlmError) (h : (chat o msgs content).2 = some e) :
    (chat o msgs content).1 = msgs := by
  unfold chat at h ⊢
  cases ht : o.tokenize (formatPromptText msgs (Message.mkUser content)) with
  | none => simp [ht]
  | some tokensList =>
    simp only [ht] at h ⊢
    cases hg : (generate o tokensList 256).result with
    | error e2 => simp [hg]
    | ok outputString => simp [hg] at h

/-- An oracle whose tokenizer always fails. -/
def tokenizeFailOracle : LlmOracle where
  tokenize := fun _ => none
  ctxOk := true
  prefillOk := true
  sample := fun _ => 0
  eos := 0
  tokenToBytes := fun _ => none
  writeOk := fun _ => true
  decodeOk := fun _ => true
  fromUtf8 := fun _ => none

/-- Witness for `chat_error_leaves_messages_unchanged`: a failing tokenizer
aborts the turn and leaves the (initial) conversation state unchanged. -/
theorem chat_error_leaves_messages_unchanged_witness :
    (chat tokenizeFailOracle llmInitialMessages "Hello").2 = some LlmError.tokenizeFailed ∧
    (chat tokenizeFailOracle llmInitialMessages "Hello").1 = llmInitialMessages :=
  ⟨rfl, chat_error_leaves_messages_unchanged tokenizeFailOracle llmInitialMessages "Hello"
    LlmError.tokenizeFailed rfl⟩

/-- C9: for every whisper-engine oracle, an empty audio buffer makes
`transcribe` return the `EmptyAudioInput` error with no call into the
speech-recognition engine, and conversely any engine call implies the
buffer was non-empty. -/
theorem transcribe_empty_rejected (engine : WhisperEngine) (audioData : List ℚ) :
    (audioData = [] →
      transcribe engine audioData = (Except.error SttError.emptyAudioInput, false)) ∧
    ((transcribe engine audioData).2 = true → audioData ≠ []) := by
  constructor
  · intro h
    subst h
    rfl
  · intro hcall hempty
    subst hempty
    simp [transcribe] at hcall

/-- A concrete whisper-engine oracle for the witness. -/
def nullWhisperEngine : WhisperEngine where
  createStateOk := true
  fullOk := fun _ => true
  nSegments := some 0
  segmentText := fun _ => some ""

/-- Witness for `transcribe_empty_rejected` on the empty buffer. -/
theorem transcribe_empty_rejected_witness :
    transcribe nullWhisperEngine [] = (Except.error SttError.emptyAudioInput, false) :=
  (transcribe_empty_rejected nullWhisperEngine []).1 rfl
